import Mathlib

/-!
Verification development for the jsonl-to-parquet conversion tool
(src/main.rs of the repository).  The Rust source is shallowly embedded:

* IEEE `f64` values are modelled by `F64`: either NaN or an exact rational.
  Decimal-to-binary rounding and the `as f32` narrowing cast are abstracted
  (they change no comparison or null/value decision made by the program).
* `serde_json::Value` is modelled by `Json`.  Objects carry their entries as
  a list in iteration order; the default `serde_json` map is a `BTreeMap`,
  so the parser below inserts entries sorted by key, which reproduces the
  real iteration order of parsed documents.  `serde_json` numbers are never
  NaN; the `F64.nan` constructor exists so that the comparison logic of
  `_find_max_item` can be analysed on the full `f64` domain it is written
  against.
* `serde_json::from_str` is modelled by `from_str`, a recursive-descent
  JSON parser (fuel-indexed).  Simplifications relative to `serde_json`:
  surrogate-pair escapes are rejected rather than combined, and numeric
  overflow to infinity is not modelled; no claim depends on either.
* `BufRead::lines` (the `contents.lines()` call on the in-memory buffer
  returned by `read_pathbuf_to_mem`) is modelled by `io_lines`: split on
  the newline character, strip one carriage return before a newline, and
  produce no final empty line after a trailing newline.
* `read_pathbuf_to_mem` / `write_mem_to_pathbuf` live in the repository's
  `io` module, which is not part of the sources here; per the spec they are
  `readWhole`/`writeWhole` (plain byte transport).  The conversion is
  therefore modelled as a function of the file's text `contents`, and is
  followed up to the finalized record batch (the Parquet byte serialization
  itself is I/O and is not modelled).
* Panics (`unwrap`) are modelled as `Except.error`: an `unwrap` failure
  aborts the conversion of the file.
-/

namespace ParquetHF

/-- Model of an `f64` scalar: NaN, or an exact rational value. -/
inductive F64 where
  | nan : F64
  | num (q : ℚ) : F64
deriving DecidableEq

/-- Model of `f64::partial_cmp`: `None` when either operand is NaN,
otherwise the ordinary comparison of the values. -/
def F64.pcmp : F64 → F64 → Option Ordering
  | .num a, .num b => some (compare a b)
  | _, _ => none

/-- The closure on line 98 of src/main.rs:
`a.partial_cmp(&b).unwrap_or(std::cmp::Ordering::Equal)`. -/
def scoreCmp (a b : F64) : Ordering := (F64.pcmp a b).getD .eq

/-- Model of `serde_json::Value`.  Object entries are listed in iteration
order (sorted by key when the value was produced by the parser). -/
inductive Json where
  | null : Json
  | bool (b : Bool) : Json
  | num (v : F64) : Json
  | str (s : String) : Json
  | arr (elems : List Json) : Json
  | obj (entries : List (String × Json)) : Json

/-- `Value::get(key)`: `Some` only on objects that contain the key. -/
def Json.get (j : Json) (k : String) : Option Json :=
  match j with
  | .obj entries => (entries.find? (fun e => e.1 = k)).map (fun e => e.2)
  | _ => none

/-- The `json["key"]` indexing used on lines 117-118: missing key or
non-object yields `Value::Null`. -/
def Json.index (j : Json) (k : String) : Json := (j.get k).getD .null

/-- `Value::as_str`. -/
def Json.as_str : Json → Option String
  | .str s => some s
  | _ => none

/-- `Value::as_f64` (any JSON number converts). -/
def Json.as_f64 : Json → Option F64
  | .num v => some v
  | _ => none

/-- `Value::as_object`, yielding the entry list in iteration order. -/
def Json.as_object : Json → Option (List (String × Json))
  | .obj entries => some entries
  | _ => none

/-- Rust `Iterator::max_by`: fold that keeps the current maximum only when
it compares strictly `Greater`, hence returns the LAST maximal element. -/
def max_by {α : Type} (l : List α) (cmp : α → α → Ordering) : Option α :=
  match l with
  | [] => none
  | x :: xs => some (xs.foldl (fun m y => if cmp m y = .gt then m else y) x)

/-- One step of the `max_by` fold, specialized to the score comparator used
by `_find_max_item`: keep the current maximum only when it is strictly
`Greater`, otherwise take the later element. -/
def maxStep (m y : String × F64) : String × F64 :=
  if scoreCmp m.2 y.2 = .gt then m else y

/-- The `filter_map` on lines 95-97: keep the entries whose value is a
number, paired as (key, value). -/
def numericEntries (entries : List (String × Json)) : List (String × F64) :=
  entries.filterMap (fun kv => (Json.as_f64 kv.2).map (fun v => (kv.1, v)))

/-- `_find_max_item` (lines 88-99 of src/main.rs). -/
def _find_max_item (json : Option Json) : Option (String × F64) :=
  match json with
  | none => none
  | some j =>
    (j.as_object).bind (fun entries =>
      max_by (numericEntries entries) (fun a b => scoreCmp a.2 b.2))

/-- Arrow column data types used by the schema. -/
inductive DataType where
  | utf8 : DataType
  | float32 : DataType
deriving DecidableEq

/-- An `arrow::datatypes::Field`: name, data type, nullable flag. -/
structure Field where
  name : String
  data_type : DataType
  nullable : Bool
deriving DecidableEq

/-- `_build_schema` (lines 77-86 of src/main.rs): the third argument of
each `Field::new` is the nullable flag. -/
def _build_schema : List Field :=
  [⟨"text", .utf8, false⟩,
   ⟨"url", .utf8, false⟩,
   ⟨"id", .utf8, false⟩,
   ⟨"language", .utf8, false⟩,
   ⟨"language_score", .float32, false⟩,
   ⟨"fasttext_score", .float32, false⟩]

/-! JSON text parsing (model of `serde_json::from_str`) -/

/-- Double-quote character. -/
def QUOTE : Char := Char.ofNat 34

/-- Backslash character. -/
def BSLASH : Char := Char.ofNat 92

/-- Opening curly brace character. -/
def LBRACE : Char := Char.ofNat 123

/-- Closing curly brace character. -/
def RBRACE : Char := Char.ofNat 125

/-- JSON whitespace: space, tab, line feed, carriage return. -/
def isJsonWs (c : Char) : Bool := c = ' ' || c = '\t' || c = '\n' || c = '\r'

/-- Drop leading JSON whitespace. -/
def skipWs : List Char → List Char
  | [] => []
  | c :: rest => if isJsonWs c then skipWs rest else c :: rest

/-- Hexadecimal digit value. -/
def hexVal (c : Char) : Option Nat :=
  if '0' ≤ c ∧ c ≤ '9' then some (c.toNat - '0'.toNat)
  else if 'a' ≤ c ∧ c ≤ 'f' then some (c.toNat - 'a'.toNat + 10)
  else if 'A' ≤ c ∧ c ≤ 'F' then some (c.toNat - 'A'.toNat + 10)
  else none

/-- Parse the body of a JSON string after the opening quote; returns the
decoded string and the remaining input. -/
def parseStringBody (acc : List Char) (l : List Char) : Option (String × List Char) :=
  match l with
  | [] => none
  | c :: rest =>
    if c = QUOTE then some (⟨acc.reverse⟩, rest)
    else if c = BSLASH then
      match rest with
      | [] => none
      | e :: rest2 =>
        if e = QUOTE then parseStringBody (QUOTE :: acc) rest2
        else if e = BSLASH then parseStringBody (BSLASH :: acc) rest2
        else if e = '/' then parseStringBody ('/' :: acc) rest2
        else if e = 'b' then parseStringBody ('\x08' :: acc) rest2
        else if e = 'f' then parseStringBody ('\x0C' :: acc) rest2
        else if e = 'n' then parseStringBody ('\n' :: acc) rest2
        else if e = 'r' then parseStringBody ('\r' :: acc) rest2
        else if e = 't' then parseStringBody ('\t' :: acc) rest2
        else if e = 'u' then
          match rest2 with
          | h1 :: h2 :: h3 :: h4 :: rest3 =>
            match hexVal h1, hexVal h2, hexVal h3, hexVal h4 with
            | some a, some b, some c2, some d =>
              let n := ((a * 16 + b) * 16 + c2) * 16 + d
              if n < 55296 ∨ (57343 < n ∧ n < 1114112) then
                parseStringBody (Char.ofNat n :: acc) rest3
              else none
            | _, _, _, _ => none
          | _ => none
        else none
    else if c.toNat < 32 then none
    else parseStringBody (c :: acc) rest
termination_by l.length
decreasing_by all_goals simp_wf <;> omega

/-- Decimal digit test. -/
def isDigit (c : Char) : Bool := '0' ≤ c && c ≤ '9'

/-- Value of a list of decimal digits. -/
def digitsVal (ds : List Char) : Nat :=
  ds.foldl (fun a c => a * 10 + (c.toNat - '0'.toNat)) 0

/-- Parse an optional fractional part `.digits`. -/
def parseFrac : List Char → Option (List Char × List Char)
  | '.' :: rest =>
    let ds := rest.takeWhile isDigit
    if ds = [] then none else some (ds, rest.dropWhile isDigit)
  | l => some ([], l)

/-- Parse an optional exponent part `e[+-]digits`. -/
def parseExp (l : List Char) : Option (Int × List Char) :=
  match l with
  | c :: rest =>
    if c = 'e' ∨ c = 'E' then
      let (esign, r2) : Int × List Char :=
        match rest with
        | '+' :: r => (1, r)
        | '-' :: r => (-1, r)
        | r => (1, r)
      let ds := r2.takeWhile isDigit
      if ds = [] then none
      else some (esign * (digitsVal ds : Int), r2.dropWhile isDigit)
    else some (0, c :: rest)
  | [] => some (0, [])

/-- Parse a JSON number into its exact rational value. -/
def parseNumber (l : List Char) : Option (F64 × List Char) :=
  let (neg, l1) : Bool × List Char :=
    match l with
    | '-' :: rest => (true, rest)
    | _ => (false, l)
  let ints := l1.takeWhile isDigit
  let l2 := l1.dropWhile isDigit
  if ints = [] then none
  else if 2 ≤ ints.length ∧ ints.head? = some '0' then none
  else
    match parseFrac l2 with
    | none => none
    | some (fracs, l3) =>
      match parseExp l3 with
      | none => none
      | some (e, l4) =>
        let mant : ℚ := (digitsVal ints : ℚ) + (digitsVal fracs : ℚ) / ((10 : ℚ) ^ fracs.length)
        let v : ℚ := (if neg then -mant else mant) * (10 : ℚ) ^ e
        some (F64.num v, l4)

/-- Sorted insertion, replacing an existing binding: the `BTreeMap::insert`
behaviour of the default `serde_json` object map. -/
def insertEntry (k : String) (v : Json) : List (String × Json) → List (String × Json)
  | [] => [(k, v)]
  | (k2, v2) :: rest =>
    if k < k2 then (k, v) :: (k2, v2) :: rest
    else if k = k2 then (k, v) :: rest
    else (k2, v2) :: insertEntry k v rest

mutual

/-- Parse one JSON value (fuel-indexed recursive descent). -/
def parseValue : Nat → List Char → Option (Json × List Char)
  | 0, _ => none
  | fuel + 1, l =>
    match skipWs l with
    | [] => none
    | c :: rest =>
      if c = QUOTE then (parseStringBody [] rest).map (fun p => (Json.str p.1, p.2))
      else if c = LBRACE then
        match skipWs rest with
        | [] => none
        | c2 :: rest2 =>
          if c2 = RBRACE then some (Json.obj [], rest2)
          else parseObjectItems fuel (c2 :: rest2) []
      else if c = '[' then
        match skipWs rest with
        | [] => none
        | c2 :: rest2 =>
          if c2 = ']' then some (Json.arr [], rest2)
          else parseArrayItems fuel (c2 :: rest2) []
      else
        match c :: rest with
        | 'n' :: 'u' :: 'l' :: 'l' :: r => some (Json.null, r)
        | 't' :: 'r' :: 'u' :: 'e' :: r => some (Json.bool true, r)
        | 'f' :: 'a' :: 'l' :: 's' :: 'e' :: r => some (Json.bool false, r)
        | l2 => (parseNumber l2).map (fun p => (Json.num p.1, p.2))

/-- Parse the members of a JSON object, accumulating into a sorted map. -/
def parseObjectItems : Nat → List Char → List (String × Json) → Option (Json × List Char)
  | 0, _, _ => none
  | fuel + 1, l, acc =>
    match l with
    | [] => none
    | c :: rest =>
      if c = QUOTE then
        match parseStringBody [] rest with
        | none => none
        | some (key, r1) =>
          match skipWs r1 with
          | ':' :: r2 =>
            match parseValue fuel r2 with
            | none => none
            | some (v, r3) =>
              match skipWs r3 with
              | ',' :: r4 => parseObjectItems fuel (skipWs r4) (insertEntry key v acc)
              | c5 :: r5 =>
                if c5 = RBRACE then some (Json.obj (insertEntry key v acc), r5) else none
              | [] => none
          | _ => none
      else none

/-- Parse the elements of a JSON array. -/
def parseArrayItems : Nat → List Char → List Json → Option (Json × List Char)
  | 0, _, _ => none
  | fuel + 1, l, acc =>
    match parseValue fuel l with
    | none => none
    | some (v, r) =>
      match skipWs r with
      | ',' :: r2 => parseArrayItems fuel r2 (v :: acc)
      | c3 :: r3 => if c3 = ']' then some (Json.arr (v :: acc).reverse, r3) else none
      | [] => none

end

/-- Model of `serde_json::from_str::<Value>`: parse one value and require
that only whitespace remains. -/
def from_str (s : String) : Option Json :=
  match parseValue (2 * s.data.length + 2) s.data with
  | none => none
  | some (j, rest) => if skipWs rest = [] then some j else none

/-- A line that is empty or consists only of whitespace. -/
def isBlank (s : String) : Bool := s.data.all isJsonWs

/-! Splitting the file into lines (model of `BufRead::lines`) -/

/-- Accumulating worker for `io_lines`; `acc` holds the current line
reversed. -/
def io_lines_aux (acc : List Char) (l : List Char) : List String :=
  match l with
  | [] => if acc = [] then [] else [⟨acc.reverse⟩]
  | c :: rest =>
    if c = '\n' then
      (⟨(match acc with | '\r' :: a => a | a => a).reverse⟩ : String) :: io_lines_aux [] rest
    else io_lines_aux (c :: acc) rest

/-- `BufRead::lines` on the whole file text: split at each line feed,
dropping one carriage return directly before it; no trailing empty line
is produced after a final newline. -/
def io_lines (s : String) : List String := io_lines_aux [] s.data

/-! Output path derivation -/

/-- The suffixes matched by the regex on line 63 of src/main.rs,
`\.jsonl?\.(?:zstd|gz)$`: exactly the compressed variants. -/
def LDJ_SUFFIXES : List String := [".json.zstd", ".json.gz", ".jsonl.zstd", ".jsonl.gz"]

/-- `replace_extension` (lines 61-74 of src/main.rs): if the path ends in
one of the recognized suffixes, replace that suffix by `.parquet`;
otherwise return the path unchanged.  The regex is end-anchored and the
four alternatives are pairwise non-nested, so at most one can match. -/
def replace_extension (path : String) : String :=
  match LDJ_SUFFIXES.find? (fun suf => suf.data.isSuffixOf path.data) with
  | some suf => ⟨path.data.take (path.data.length - suf.data.length) ++ ".parquet".data⟩
  | none => path

/-! Per-line decoding and column accumulation -/

/-- Error of the `unwrap` on `serde_json::from_str` (line 114). -/
def E_PARSE : String := "from_str failed"

/-- Error of the `unwrap` on `json[text].as_str()` (line 117). -/
def E_TEXT : String := "text as_str failed"

/-- Error of the `unwrap` on `json[url].as_str()` (line 118). -/
def E_URL : String := "url as_str failed"

/-- Error of the `unwrap` on `ft_score.unwrap().as_f64()` (line 140). -/
def E_FT : String := "fasttext as_f64 failed"

/-- Error of `RecordBatch::try_new` on mismatched column lengths. -/
def E_BATCH : String := "record batch column length mismatch"

/-- Error of `RecordBatch::try_new` when a non-nullable column holds null
values. -/
def E_NULLS : String := "column is declared as non-nullable but contains null values"

/-- The key of the nested language-score mapping (line 126). -/
def LANG_KEY : String := "language_id_whole_page_fasttext"

/-- The key of the top-level fasttext probability field (line 136). -/
def FT_KEY : String := "fasttext_openhermes_reddit_eli5_vs_rw_v2_bigram_200k_train_prob"

/-- The six column builders (lines 105-110).  String builders hold
`Option String` entries and float builders hold `Option F64` entries, so
that explicit nulls are represented. -/
structure Builders where
  text : List (Option String)
  url : List (Option String)
  id : List (Option String)
  language : List (Option String)
  language_score : List (Option F64)
  fasttext_score : List (Option F64)
deriving DecidableEq

/-- The fresh builders created at the top of `jsonl_to_parquet`. -/
def Builders.new : Builders := ⟨[], [], [], [], [], []⟩

/-- One loop iteration of `jsonl_to_parquet` (lines 112-142), with the
appends in source order; an `unwrap` failure is an error. -/
def process_line (b : Builders) (line : String) : Except String Builders :=
  match from_str line with
  | none => .error E_PARSE
  | some json =>
    match (json.index "text").as_str with
    | none => .error E_TEXT
    | some text =>
      let b := { b with text := b.text ++ [some text] }
      match (json.index "url").as_str with
      | none => .error E_URL
      | some url =>
        let b := { b with url := b.url ++ [some url] }
        let b := { b with id := b.id ++
          [((json.get "metadata").bind (fun m => m.get "WARC-Record-ID")).bind Json.as_str] }
        let b :=
          match _find_max_item (json.get LANG_KEY) with
          | none =>
            { b with language := b.language ++ [none],
                     language_score := b.language_score ++ [none] }
          | some (lang_id, lang_score) =>
            { b with language := b.language ++ [some lang_id],
                     language_score := b.language_score ++ [some lang_score] }
        match json.get FT_KEY with
        | none => .ok { b with fasttext_score := b.fasttext_score ++ [none] }
        | some v =>
          match v.as_f64 with
          | none => .error E_FT
          | some f => .ok { b with fasttext_score := b.fasttext_score ++ [some f] }

/-- The values one decoded line contributes, one per column. -/
structure Row where
  text : String
  url : String
  id : Option String
  language : Option String
  language_score : Option F64
  fasttext_score : Option F64
deriving DecidableEq

/-- Append one row to every builder (one value or explicit null each). -/
def appendRow (b : Builders) (r : Row) : Builders :=
  ⟨b.text ++ [some r.text], b.url ++ [some r.url], b.id ++ [r.id],
   b.language ++ [r.language], b.language_score ++ [r.language_score],
   b.fasttext_score ++ [r.fasttext_score]⟩

/-- The fasttext-score extraction (lines 136-141) as a value. -/
def ftValue (json : Json) : Except String (Option F64) :=
  match json.get FT_KEY with
  | none => .ok none
  | some v =>
    match v.as_f64 with
    | none => .error E_FT
    | some f => .ok (some f)

/-- The pure per-line extraction: the row a line contributes, or the error
aborting the file.  `process_line` is exactly this followed by the appends
(lemma `process_line_eq`). -/
def extract_row (line : String) : Except String Row :=
  match from_str line with
  | none => .error E_PARSE
  | some json =>
    match (json.index "text").as_str with
    | none => .error E_TEXT
    | some text =>
      match (json.index "url").as_str with
      | none => .error E_URL
      | some url =>
        let id := ((json.get "metadata").bind (fun m => m.get "WARC-Record-ID")).bind Json.as_str
        match ftValue json with
        | .error e => .error e
        | .ok ft =>
          match _find_max_item (json.get LANG_KEY) with
          | none => .ok ⟨text, url, id, none, none, ft⟩
          | some (lang_id, lang_score) => .ok ⟨text, url, id, some lang_id, some lang_score, ft⟩

/-- Sequential extraction of all lines, stopping at the first error. -/
def extractAll : List String → Except String (List Row)
  | [] => .ok []
  | line :: rest =>
    match extract_row line with
    | .error e => .error e
    | .ok r =>
      match extractAll rest with
      | .error e => .error e
      | .ok rs => .ok (r :: rs)

/-- A column holds no nulls (its null count is zero). -/
def noNulls {α : Type} (xs : List (Option α)) : Bool := xs.all (fun x => x.isSome)

/-- `RecordBatch::try_new` validation: all columns must have the same
length, and a column whose schema field is non-nullable must contain no
null values (arrow rejects such a batch with a non-nullable-column error).
Every field of `_build_schema` is declared non-nullable, so the null-count
validation applies to each of the six columns here.  The column-count and
data-type checks compare compile-time constants in this program and cannot
fail; the relative order of the two modelled validations is not observable
through the claims (only the success set and the existence of an error
are). -/
def try_new (b : Builders) : Except String Builders :=
  if b.url.length = b.text.length ∧ b.id.length = b.text.length ∧
     b.language.length = b.text.length ∧ b.language_score.length = b.text.length ∧
     b.fasttext_score.length = b.text.length
  then
    if noNulls b.text && noNulls b.url && noNulls b.id && noNulls b.language &&
       noNulls b.language_score && noNulls b.fasttext_score
    then .ok b else .error E_NULLS
  else .error E_BATCH

/-- `jsonl_to_parquet` (lines 101-170) modelled up to the finalized record
batch: split the file text into lines, run the per-line loop over the
builders, finish them and build the batch. -/
def jsonl_to_parquet (contents : String) : Except String Builders :=
  match (io_lines contents).foldlM process_line Builders.new with
  | .error e => .error e
  | .ok b => try_new b


/-! Basic facts about blank lines and the parser -/

theorem skipWs_eq_nil {l : List Char} (h : l.all isJsonWs = true) : skipWs l = [] := by
  induction l with
  | nil => rfl
  | cons c rest ih =>
    rw [List.all_cons, Bool.and_eq_true] at h
    rw [skipWs, if_pos h.1]
    exact ih h.2

theorem parseValue_skipWs_nil {fuel : Nat} {l : List Char} (h : skipWs l = []) :
    parseValue fuel l = none := by
  cases fuel with
  | zero => rfl
  | succ f => rw [parseValue, h]

theorem from_str_blank {s : String} (h : isBlank s = true) : from_str s = none := by
  rw [from_str, parseValue_skipWs_nil (skipWs_eq_nil h)]

/-! The per-line loop factors through the pure row extraction -/

theorem process_line_eq (b : Builders) (line : String) :
    process_line b line = (extract_row line).map (appendRow b) := by
  cases hfs : from_str line with
  | none => simp [process_line, extract_row, Except.map, hfs]
  | some json =>
    cases htext : (json.index "text").as_str with
    | none => simp [process_line, extract_row, Except.map, hfs, htext]
    | some text =>
      cases hurl : (json.index "url").as_str with
      | none => simp [process_line, extract_row, Except.map, hfs, htext, hurl]
      | some url =>
        cases hft : json.get FT_KEY with
        | none =>
          cases hmax : _find_max_item (json.get LANG_KEY) with
          | none =>
            simp [process_line, extract_row, Except.map, ftValue, appendRow, hfs, htext, hurl, hft, hmax]
          | some p =>
            cases p with
            | mk lg sc =>
              simp [process_line, extract_row, Except.map, ftValue, appendRow, hfs, htext, hurl, hft, hmax]
        | some v =>
          cases hv : v.as_f64 with
          | none =>
            cases hmax : _find_max_item (json.get LANG_KEY) with
            | none =>
              simp [process_line, extract_row, Except.map, ftValue, appendRow, hfs, htext, hurl, hft, hv, hmax]
            | some p =>
              cases p with
              | mk lg sc =>
                simp [process_line, extract_row, Except.map, ftValue, appendRow, hfs, htext, hurl, hft, hv,
                  hmax]
          | some f =>
            cases hmax : _find_max_item (json.get LANG_KEY) with
            | none =>
              simp [process_line, extract_row, Except.map, ftValue, appendRow, hfs, htext, hurl, hft, hv, hmax]
            | some p =>
              cases p with
              | mk lg sc =>
                simp [process_line, extract_row, Except.map, ftValue, appendRow, hfs, htext, hurl, hft, hv,
                  hmax]

theorem foldlM_process_eq (lines : List String) (b : Builders) :
    lines.foldlM process_line b =
      (extractAll lines).map (fun rows => rows.foldl appendRow b) := by
  induction lines generalizing b with
  | nil => rfl
  | cons line rest ih =>
    rw [List.foldlM_cons]
    cases hx : extract_row line with
    | error e =>
      have hp : process_line b line = .error e := by rw [process_line_eq, hx]; rfl
      rw [hp]
      show Except.error e = _
      rw [extractAll, hx]
      rfl
    | ok r =>
      have hp : process_line b line = .ok (appendRow b r) := by rw [process_line_eq, hx]; rfl
      rw [hp]
      show rest.foldlM process_line (appendRow b r) = _
      rw [ih, extractAll, hx]
      cases hrest : extractAll rest with
      | error e => rfl
      | ok rows => rfl

theorem foldl_appendRow_eq (rows : List Row) (b : Builders) :
    rows.foldl appendRow b =
      ⟨b.text ++ rows.map (fun r => some r.text),
       b.url ++ rows.map (fun r => some r.url),
       b.id ++ rows.map Row.id,
       b.language ++ rows.map Row.language,
       b.language_score ++ rows.map Row.language_score,
       b.fasttext_score ++ rows.map Row.fasttext_score⟩ := by
  induction rows generalizing b with
  | nil => cases b; simp
  | cons r rest ih =>
    rw [List.foldl_cons, ih]
    cases b
    simp [appendRow]

theorem loop_ok_elim {lines : List String} {b : Builders}
    (h : lines.foldlM process_line Builders.new = .ok b) :
    ∃ rows, extractAll lines = .ok rows ∧
      b = rows.foldl appendRow Builders.new := by
  rw [foldlM_process_eq] at h
  cases hx : extractAll lines with
  | error e => rw [hx] at h; exact absurd h (by simp [Except.map])
  | ok rows =>
    rw [hx] at h
    simp only [Except.map] at h
    exact ⟨rows, rfl, ((Except.ok.injEq _ _).mp h).symm⟩

theorem jsonl_ok_elim {contents : String} {b : Builders}
    (h : jsonl_to_parquet contents = .ok b) :
    ∃ rows, extractAll (io_lines contents) = .ok rows ∧
      b = rows.foldl appendRow Builders.new := by
  unfold jsonl_to_parquet at h
  cases hf : (io_lines contents).foldlM process_line Builders.new with
  | error e => rw [hf] at h; exact absurd h (by simp)
  | ok b0 =>
    rw [hf] at h
    have h2 : try_new b0 = .ok b := h
    unfold try_new at h2
    split at h2
    · split at h2
      · obtain ⟨rows, hrows, hb⟩ := loop_ok_elim hf
        have hbb : b0 = b := (Except.ok.injEq _ _).mp h2
        exact ⟨rows, hrows, hbb ▸ hb⟩
      · simp at h2
    · simp at h2

theorem extractAll_error_of_mem {lines : List String} {line : String}
    (hmem : line ∈ lines) (hbad : ∃ e, extract_row line = .error e) :
    ∃ e, extractAll lines = .error e := by
  induction lines with
  | nil => cases hmem
  | cons a rest ih =>
    rcases List.mem_cons.mp hmem with rfl | h2
    · obtain ⟨e, he⟩ := hbad
      exact ⟨e, by rw [extractAll, he]⟩
    · cases hx : extract_row a with
      | error e => exact ⟨e, by rw [extractAll, hx]⟩
      | ok r =>
        obtain ⟨e2, he2⟩ := ih h2
        exact ⟨e2, by rw [extractAll, hx, he2]⟩

theorem jsonl_error_of_bad_line {contents : String} {line : String}
    (hmem : line ∈ io_lines contents) (hbad : ∃ e, extract_row line = .error e) :
    ∃ e, jsonl_to_parquet contents = .error e := by
  obtain ⟨e, he⟩ := extractAll_error_of_mem hmem hbad
  refine ⟨e, ?_⟩
  unfold jsonl_to_parquet
  rw [foldlM_process_eq, he]
  rfl

theorem extract_row_blank {line : String} (h : isBlank line = true) :
    extract_row line = .error E_PARSE := by
  rw [extract_row, from_str_blank h]


theorem extract_row_requires {line : String} {j : Json}
    (hj : from_str line = some j)
    (hbad : (j.index "text").as_str = none ∨ (j.index "url").as_str = none) :
    ∃ e, extract_row line = .error e := by
  rcases hbad with hb | hb
  · exact ⟨E_TEXT, by simp [extract_row, hj, hb]⟩
  · cases ht : (j.index "text").as_str with
    | none => exact ⟨E_TEXT, by simp [extract_row, hj, ht]⟩
    | some t => exact ⟨E_URL, by simp [extract_row, hj, ht, hb]⟩

theorem extract_row_ft_bad {line : String} {j v : Json}
    (hj : from_str line = some j) (hft : j.get FT_KEY = some v)
    (hv : v.as_f64 = none) :
    ∃ e, extract_row line = .error e := by
  cases ht : (j.index "text").as_str with
  | none => exact ⟨E_TEXT, by simp [extract_row, hj, ht]⟩
  | some t =>
    cases hu : (j.index "url").as_str with
    | none => exact ⟨E_URL, by simp [extract_row, hj, ht, hu]⟩
    | some u => exact ⟨E_FT, by simp [extract_row, ftValue, hj, ht, hu, hft, hv]⟩

theorem extract_row_ok_isSome {line : String} {r : Row}
    (h : extract_row line = .ok r) : (from_str line).isSome = true := by
  cases hfs : from_str line with
  | none => simp [extract_row, hfs] at h
  | some j => rfl

theorem extract_row_ok_lang {line : String} {r : Row}
    (h : extract_row line = .ok r) :
    r.language = none ↔ r.language_score = none := by
  cases hfs : from_str line with
  | none => simp [extract_row, hfs] at h
  | some json =>
    cases htext : (json.index "text").as_str with
    | none => simp [extract_row, hfs, htext] at h
    | some text =>
      cases hurl : (json.index "url").as_str with
      | none => simp [extract_row, hfs, htext, hurl] at h
      | some url =>
        cases hftv : ftValue json with
        | error e => simp [extract_row, hfs, htext, hurl, hftv] at h
        | ok ft =>
          cases hmax : _find_max_item (json.get LANG_KEY) with
          | none =>
            simp only [extract_row, hfs, htext, hurl, hftv, hmax] at h
            injection h with h2
            subst h2
            simp
          | some p =>
            cases p with
            | mk lg sc =>
              simp only [extract_row, hfs, htext, hurl, hftv, hmax] at h
              injection h with h2
              subst h2
              simp

theorem extract_row_ok_ft {line : String} {r : Row} {j : Json}
    (h : extract_row line = .ok r) (hj : from_str line = some j) :
    ftValue j = .ok r.fasttext_score := by
  cases htext : (j.index "text").as_str with
  | none => simp [extract_row, hj, htext] at h
  | some text =>
    cases hurl : (j.index "url").as_str with
    | none => simp [extract_row, hj, htext, hurl] at h
    | some url =>
      cases hftv : ftValue j with
      | error e => simp [extract_row, hj, htext, hurl, hftv] at h
      | ok ft =>
        cases hmax : _find_max_item (j.get LANG_KEY) with
        | none =>
          simp only [extract_row, hj, htext, hurl, hftv, hmax] at h
          injection h with h2
          subst h2
          rfl
        | some p =>
          cases p with
          | mk lg sc =>
            simp only [extract_row, hj, htext, hurl, hftv, hmax] at h
            injection h with h2
            subst h2
            rfl

theorem extractAll_ok_length {lines : List String} {rows : List Row}
    (h : extractAll lines = .ok rows) : rows.length = lines.length := by
  induction lines generalizing rows with
  | nil =>
    simp only [extractAll] at h
    injection h with h2
    subst h2
    rfl
  | cons line rest ih =>
    cases hx : extract_row line with
    | error e => simp only [extractAll, hx] at h; exact Except.noConfusion h
    | ok r =>
      cases hrest : extractAll rest with
      | error e => simp only [extractAll, hx, hrest] at h; exact Except.noConfusion h
      | ok rs =>
        simp only [extractAll, hx, hrest] at h
        injection h with h2
        subst h2
        simp [ih hrest]

theorem extractAll_ok_mem {lines : List String} {rows : List Row}
    (h : extractAll lines = .ok rows) :
    ∀ line ∈ lines, ∃ r, extract_row line = .ok r := by
  induction lines generalizing rows with
  | nil => intro line hl; cases hl
  | cons a rest ih =>
    intro line hl
    cases hx : extract_row a with
    | error e => simp only [extractAll, hx] at h; exact Except.noConfusion h
    | ok r =>
      cases hrest : extractAll rest with
      | error e => simp only [extractAll, hx, hrest] at h; exact Except.noConfusion h
      | ok rs =>
        rcases List.mem_cons.mp hl with rfl | h2
        · exact ⟨r, hx⟩
        · exact ih hrest line h2

theorem extractAll_ok_rows_mem {lines : List String} {rows : List Row}
    (h : extractAll lines = .ok rows) :
    ∀ r ∈ rows, ∃ line, extract_row line = .ok r := by
  induction lines generalizing rows with
  | nil =>
    simp only [extractAll] at h
    injection h with h2
    subst h2
    intro r hr
    cases hr
  | cons a rest ih =>
    cases hx : extract_row a with
    | error e => simp only [extractAll, hx] at h; exact Except.noConfusion h
    | ok r0 =>
      cases hrest : extractAll rest with
      | error e => simp only [extractAll, hx, hrest] at h; exact Except.noConfusion h
      | ok rs =>
        simp only [extractAll, hx, hrest] at h
        injection h with h2
        subst h2
        intro r hr
        rcases List.mem_cons.mp hr with rfl | h2
        · exact ⟨a, hx⟩
        · exact ih hrest r h2

theorem extractAll_ok_get {lines : List String} {rows : List Row}
    (h : extractAll lines = .ok rows) :
    ∀ (i : Nat) (line : String), lines[i]? = some line →
      ∃ r, rows[i]? = some r ∧ extract_row line = .ok r := by
  induction lines generalizing rows with
  | nil => intro i line hl; simp at hl
  | cons a rest ih =>
    intro i line hl
    cases hx : extract_row a with
    | error e => simp only [extractAll, hx] at h; exact Except.noConfusion h
    | ok r0 =>
      cases hrest : extractAll rest with
      | error e => simp only [extractAll, hx, hrest] at h; exact Except.noConfusion h
      | ok rs =>
        simp only [extractAll, hx, hrest] at h
        injection h with h2
        subst h2
        cases i with
        | zero =>
          simp only [List.getElem?_cons_zero, Option.some.injEq] at hl
          subst hl
          exact ⟨r0, by simp, hx⟩
        | succ n =>
          simp only [List.getElem?_cons_succ] at hl ⊢
          exact ih hrest n line hl

/-! Claim C1 -/

/-- Claim C1, counterexample: a file whose single line is whitespace-only is
NOT skipped — its conversion fails, because the blank line is handed to the
JSON parser, which rejects a blank string. -/
theorem C1_counterexample :
    io_lines " " = [" "] ∧ isBlank " " = true ∧
      jsonl_to_parquet " " = .error E_PARSE :=
  ⟨rfl, rfl, rfl⟩

/-- Claim C1, amended: when the file's text is split into lines, a line that
is empty or whitespace-only is not skipped; instead it causes the whole
file's conversion to fail (a blank string is not valid JSON, so the decode
unwrap fails on that line). -/
theorem C1_amended_thm (contents : String)
    (h : ∃ line ∈ io_lines contents, isBlank line = true) :
    ∃ e, jsonl_to_parquet contents = .error e := by
  obtain ⟨line, hmem, hblank⟩ := h
  exact jsonl_error_of_bad_line hmem ⟨E_PARSE, extract_row_blank hblank⟩

/-- Witness for C1_amended_thm at the one-blank-line file. -/
theorem C1_amended_witness :
    (∃ line ∈ io_lines " ", isBlank line = true) ∧
      ∃ e, jsonl_to_parquet " " = .error e :=
  ⟨by decide, C1_amended_thm " " (by decide)⟩

/-! Claim C2 -/

/-- Claim C2, counterexample: it is false that every column other than the
text and url columns is declared nullable — the id field (and likewise
language, language_score, fasttext_score) is declared non-nullable. -/
theorem C2_counterexample :
    ¬ (∀ f ∈ _build_schema, f.name ≠ "text" → f.name ≠ "url" → f.nullable = true) := by
  decide

/-- Claim C2, amended: the schema fields appear in the fixed declared order
text, url, id, language, language_score, fasttext_score with column types
Utf8, Utf8, Utf8, Utf8, Float32, Float32, but every one of the six fields —
the optional ones included — is declared non-nullable. -/
theorem C2_amended_thm :
    _build_schema.map Field.name =
        ["text", "url", "id", "language", "language_score", "fasttext_score"] ∧
      _build_schema.map Field.data_type =
        [.utf8, .utf8, .utf8, .utf8, .float32, .float32] ∧
      _build_schema.map Field.nullable = [false, false, false, false, false, false] :=
  ⟨rfl, rfl, rfl⟩
/-! Claim C5 -/

theorem not_suffix_of_incomp {p a b : List Char} (hb : b <:+ p)
    (h1 : ¬ a <:+ b) (h2 : ¬ b <:+ a) : ¬ a <:+ p := fun ha =>
  (List.suffix_or_suffix_of_suffix ha hb).elim h1 h2

theorem replace_ext_of_suffix {pre : List Char} {suf path : String}
    (hmem : suf ∈ LDJ_SUFFIXES) (heq : path.data = pre ++ suf.data) :
    replace_extension path = ⟨pre ++ ".parquet".data⟩ := by
  have hsuf : suf.data <:+ path.data := heq ▸ List.suffix_append pre suf.data
  have htake : path.data.take (path.data.length - suf.data.length) = pre := by
    rw [heq, List.length_append, Nat.add_sub_cancel, List.take_left]
  have hfind : LDJ_SUFFIXES.find? (fun s => s.data.isSuffixOf path.data) = some suf := by
    simp only [LDJ_SUFFIXES]
    fin_cases hmem
    · exact List.find?_cons_of_pos _ (by simpa using hsuf)
    · rw [List.find?_cons_of_neg _
        (by simpa using not_suffix_of_incomp hsuf (by decide) (by decide))]
      exact List.find?_cons_of_pos _ (by simpa using hsuf)
    · rw [List.find?_cons_of_neg _
          (by simpa using not_suffix_of_incomp hsuf (by decide) (by decide)),
        List.find?_cons_of_neg _
          (by simpa using not_suffix_of_incomp hsuf (by decide) (by decide))]
      exact List.find?_cons_of_pos _ (by simpa using hsuf)
    · rw [List.find?_cons_of_neg _
          (by simpa using not_suffix_of_incomp hsuf (by decide) (by decide)),
        List.find?_cons_of_neg _
          (by simpa using not_suffix_of_incomp hsuf (by decide) (by decide)),
        List.find?_cons_of_neg _
          (by simpa using not_suffix_of_incomp hsuf (by decide) (by decide))]
      exact List.find?_cons_of_pos _ (by simpa using hsuf)
  rw [replace_extension, hfind]
  simp only [htake]

theorem replace_ext_of_no_suffix {path : String}
    (h : ∀ suf ∈ LDJ_SUFFIXES, ¬ suf.data <:+ path.data) :
    replace_extension path = path := by
  have hfind : LDJ_SUFFIXES.find? (fun s => s.data.isSuffixOf path.data) = none := by
    rw [List.find?_eq_none]
    intro s hs
    simpa using h s hs
  rw [replace_extension, hfind]

/-- Claim C5, counterexample: a path ending in the plain (uncompressed)
line-delimited-JSON suffix .jsonl is NOT rewritten — the output path keeps
the .jsonl suffix instead of being replaced by .parquet. -/
theorem C5_counterexample :
    ".jsonl".data <:+ "data.jsonl".data ∧
      replace_extension "data.jsonl" = "data.jsonl" ∧
      "data.jsonl" ≠ "data.parquet" := by
  refine ⟨by decide, by decide, by decide⟩

/-- Claim C5, amended: the recognized suffixes are exactly the compressed
variants .json.zstd, .json.gz, .jsonl.zstd, .jsonl.gz; a path ending in one
of them has that suffix replaced by .parquet, and every other path — paths
ending in plain .jsonl or .json included — is returned unchanged. -/
theorem C5_amended_thm :
    (∀ (pre : List Char) (suf path : String), suf ∈ LDJ_SUFFIXES →
        path.data = pre ++ suf.data →
        replace_extension path = ⟨pre ++ ".parquet".data⟩) ∧
      ∀ path : String, (∀ suf ∈ LDJ_SUFFIXES, ¬ suf.data <:+ path.data) →
        replace_extension path = path :=
  ⟨fun _ _ _ hmem heq => replace_ext_of_suffix hmem heq,
   fun _ h => replace_ext_of_no_suffix h⟩

/-- Witness for C5_amended_thm: the path x.jsonl.gz is rewritten to
x.parquet, and the path a.txt is left unchanged. -/
theorem C5_amended_witness :
    (".jsonl.gz" ∈ LDJ_SUFFIXES ∧ "x.jsonl.gz".data = "x".data ++ ".jsonl.gz".data) ∧
      replace_extension "x.jsonl.gz" = ⟨"x".data ++ ".parquet".data⟩ ∧
      replace_extension "a.txt" = "a.txt" :=
  ⟨⟨by decide, by decide⟩,
    C5_amended_thm.1 "x".data ".jsonl.gz" "x.jsonl.gz" (by decide) (by decide),
    C5_amended_thm.2 "a.txt" (by decide)⟩
/-! Claim C6 -/

/-- Claim C6: the max-of-mapping extraction returns ("fr", 0.9) on the
mapping en:0.7, fr:0.9, de:0.2; returns none (both outputs null) on the
empty mapping; and an entry whose value is not numeric is excluded from the
comparison (removing or inserting it does not change the result). -/
theorem C6_thm :
    _find_max_item (some (Json.obj
        [("en", Json.num (F64.num (7/10))), ("fr", Json.num (F64.num (9/10))),
         ("de", Json.num (F64.num (2/10)))])) = some ("fr", F64.num (9/10)) ∧
      _find_max_item (some (Json.obj [])) = none ∧
      ∀ (pre post : List (String × Json)) (k : String) (v : Json), v.as_f64 = none →
        _find_max_item (some (Json.obj (pre ++ (k, v) :: post))) =
          _find_max_item (some (Json.obj (pre ++ post))) := by
  refine ⟨by with_unfolding_all decide, rfl, ?_⟩
  intro pre post k v hv
  simp [_find_max_item, Json.as_object, numericEntries, List.filterMap_append,
    List.filterMap_cons, hv]

/-- Witness for the non-numeric-exclusion part of C6_thm: a string-valued
entry is excluded from the comparison. -/
theorem C6_witness :
    Json.as_f64 (Json.str "bad") = none ∧
      _find_max_item (some (Json.obj
          ([] ++ ("k", Json.str "bad") :: [("en", Json.num (F64.num 1))]))) =
        _find_max_item (some (Json.obj ([] ++ [("en", Json.num (F64.num 1))]))) :=
  ⟨rfl, C6_thm.2.2 [] [("en", Json.num (F64.num 1))] "k" (Json.str "bad") rfl⟩
/-! Claims C3 and C4: the max_by fold -/

theorem find_max_eq (entries : List (String × Json)) :
    _find_max_item (some (Json.obj entries)) =
      match numericEntries entries with
      | [] => none
      | x :: xs => some (xs.foldl maxStep x) := by
  show max_by (numericEntries entries) (fun a b => scoreCmp a.2 b.2) = _
  cases h : numericEntries entries with
  | nil => rfl
  | cons x xs => rfl

theorem scoreCmp_gt_num {a b : F64} (h : scoreCmp a b = .gt) :
    ∃ qa qb, a = F64.num qa ∧ b = F64.num qb ∧ qb < qa := by
  cases a with
  | nan => simp [scoreCmp, F64.pcmp] at h
  | num qa =>
    cases b with
    | nan => simp [scoreCmp, F64.pcmp] at h
    | num qb =>
      refine ⟨qa, qb, rfl, rfl, ?_⟩
      have hc : compare qa qb = .gt := by simpa [scoreCmp, F64.pcmp] using h
      exact compare_gt_iff_gt.mp hc

theorem scoreCmp_nan_not_gt (a b : F64) (h : a = F64.nan ∨ b = F64.nan) :
    scoreCmp a b ≠ .gt := by
  rcases h with rfl | rfl
  · cases b <;> simp [scoreCmp, F64.pcmp]
  · cases a <;> simp [scoreCmp, F64.pcmp]

theorem scoreCmp_le_trans {a b c : F64} (hb : b ≠ F64.nan)
    (h1 : scoreCmp a b ≠ .gt) (h2 : scoreCmp b c ≠ .gt) : scoreCmp a c ≠ .gt := by
  cases a with
  | nan => exact scoreCmp_nan_not_gt _ _ (Or.inl rfl)
  | num qa =>
    cases c with
    | nan => exact scoreCmp_nan_not_gt _ _ (Or.inr rfl)
    | num qc =>
      cases b with
      | nan => exact absurd rfl hb
      | num qb =>
        have h1q : qa ≤ qb := compare_le_iff_le.mp (by simpa [scoreCmp, F64.pcmp] using h1)
        have h2q : qb ≤ qc := compare_le_iff_le.mp (by simpa [scoreCmp, F64.pcmp] using h2)
        have hle : compare qa qc ≠ .gt := compare_le_iff_le.mpr (le_trans h1q h2q)
        simpa [scoreCmp, F64.pcmp] using hle

theorem scoreCmp_lt_le_trans {a b c : F64}
    (h1 : scoreCmp a b = .gt) (h2 : scoreCmp a c ≠ .gt) : scoreCmp b c ≠ .gt := by
  obtain ⟨qa, qb, rfl, rfl, hba⟩ := scoreCmp_gt_num h1
  cases c with
  | nan => exact scoreCmp_nan_not_gt _ _ (Or.inr rfl)
  | num qc =>
    have h2q : qa ≤ qc := compare_le_iff_le.mp (by simpa [scoreCmp, F64.pcmp] using h2)
    have hle : compare qb qc ≠ .gt := compare_le_iff_le.mpr (le_trans (le_of_lt hba) h2q)
    simpa [scoreCmp, F64.pcmp] using hle

theorem foldl_maxStep_lastmax (ys : List (String × F64)) :
    ∀ m : String × F64, (∀ p ∈ m :: ys, p.2 ≠ F64.nan) →
      ∃ l1 l2 best, m :: ys = l1 ++ best :: l2 ∧
        ys.foldl maxStep m = best ∧
        (∀ p ∈ l1, scoreCmp p.2 best.2 ≠ .gt) ∧
        (∀ p ∈ l2, scoreCmp best.2 p.2 = .gt) := by
  induction ys with
  | nil =>
    intro m _
    exact ⟨[], [], m, rfl, rfl, by simp, by simp⟩
  | cons y ys ih =>
    intro m hm
    have hmY : maxStep m y = m ∨ maxStep m y = y := by
      unfold maxStep
      split
      · exact Or.inl rfl
      · exact Or.inr rfl
    have hm2 : ∀ p ∈ maxStep m y :: ys, p.2 ≠ F64.nan := by
      intro p hp
      rcases List.mem_cons.mp hp with rfl | hpy
      · rcases hmY with h | h
        · rw [h]; exact hm m (by simp)
        · rw [h]; exact hm y (by simp)
      · exact hm p (by simp [hpy])
    obtain ⟨l1, l2, best, heq, hfold, hpre, hsuf⟩ := ih (maxStep m y) hm2
    have hfold2 : (y :: ys).foldl maxStep m = best := by
      rw [List.foldl_cons]; exact hfold
    by_cases hc : scoreCmp m.2 y.2 = .gt
    · have hms : maxStep m y = m := by simp [maxStep, hc]
      rw [hms] at heq hfold
      cases l1 with
      | nil =>
        simp only [List.nil_append] at heq
        injection heq with h1 h2
        subst h1
        subst h2
        refine ⟨[], y :: ys, m, by simp, hfold2, by simp, ?_⟩
        intro p hp
        rcases List.mem_cons.mp hp with rfl | hp2
        · exact hc
        · exact hsuf p hp2
      | cons a l1t =>
        injection heq with h1 h2
        subst h1
        refine ⟨m :: y :: l1t, l2, best, by simp [h2], hfold2, ?_, hsuf⟩
        intro p hp
        rcases List.mem_cons.mp hp with h | hp2
        · rw [h]
          exact hpre m (by simp)
        · rcases List.mem_cons.mp hp2 with h | hp3
          · rw [h]
            exact scoreCmp_lt_le_trans hc (hpre m (by simp))
          · exact hpre p (by simp [hp3])
    · have hms : maxStep m y = y := by simp [maxStep, hc]
      rw [hms] at heq hfold
      cases l1 with
      | nil =>
        simp only [List.nil_append] at heq
        injection heq with h1 h2
        subst h1
        subst h2
        refine ⟨[m], ys, y, by simp, hfold2, ?_, hsuf⟩
        intro p hp
        rcases List.mem_singleton.mp hp with rfl
        exact hc
      | cons a l1t =>
        injection heq with h1 h2
        subst h1
        refine ⟨m :: y :: l1t, l2, best, by simp [h2], hfold2, ?_, hsuf⟩
        intro p hp
        rcases List.mem_cons.mp hp with h | hp2
        · have hyb : scoreCmp y.2 best.2 ≠ .gt := hpre y (by simp)
          have hynan : y.2 ≠ F64.nan := hm y (by simp)
          rw [h]
          exact scoreCmp_le_trans hynan hc hyb
        · rcases List.mem_cons.mp hp2 with h | hp3
          · rw [h]
            exact hpre y (by simp)
          · exact hpre p (by simp [hp3])

/-- Claim C3, counterexample: on a mapping whose two entries share the exact
maximum score, the extraction returns the LAST entry in iteration order
("b"), not the first ("a"). -/
theorem C3_counterexample :
    _find_max_item (some (Json.obj
        [("a", Json.num (F64.num 1)), ("b", Json.num (F64.num 1))])) =
      some ("b", F64.num 1) ∧ ("b" : String) ≠ "a" :=
  ⟨by with_unfolding_all decide, by decide⟩

/-- Claim C3, amended: on every mapping whose numeric entries are non-NaN
and nonempty, the extraction selects the LAST entry (in iteration order)
achieving the maximum: no earlier entry compares strictly greater than the
selected one, and the selected one compares strictly greater than every
later entry. -/
theorem C3_amended_thm (entries : List (String × Json))
    (hnn : ∀ p ∈ numericEntries entries, p.2 ≠ F64.nan)
    (hne : numericEntries entries ≠ []) :
    ∃ l1 l2 best, numericEntries entries = l1 ++ best :: l2 ∧
      _find_max_item (some (Json.obj entries)) = some best ∧
      (∀ p ∈ l1, scoreCmp p.2 best.2 ≠ .gt) ∧
      (∀ p ∈ l2, scoreCmp best.2 p.2 = .gt) := by
  rw [find_max_eq]
  cases h : numericEntries entries with
  | nil => exact absurd h hne
  | cons x xs =>
    rw [h] at hnn
    obtain ⟨l1, l2, best, heq, hfold, hpre, hsuf⟩ := foldl_maxStep_lastmax xs x hnn
    refine ⟨l1, l2, best, heq, ?_, hpre, hsuf⟩
    show some (xs.foldl maxStep x) = some best
    rw [hfold]

/-- Witness for C3_amended_thm at the two-entry mapping a:1, b:2. -/
theorem C3_amended_witness :
    ((∀ p ∈ numericEntries [("a", Json.num (F64.num 1)), ("b", Json.num (F64.num 2))],
        p.2 ≠ F64.nan) ∧
      numericEntries [("a", Json.num (F64.num 1)), ("b", Json.num (F64.num 2))] ≠ []) ∧
      ∃ l1 l2 best,
        numericEntries [("a", Json.num (F64.num 1)), ("b", Json.num (F64.num 2))] =
            l1 ++ best :: l2 ∧
          _find_max_item (some (Json.obj
              [("a", Json.num (F64.num 1)), ("b", Json.num (F64.num 2))])) = some best ∧
          (∀ p ∈ l1, scoreCmp p.2 best.2 ≠ .gt) ∧
          (∀ p ∈ l2, scoreCmp best.2 p.2 = .gt) :=
  ⟨⟨by with_unfolding_all decide, by with_unfolding_all decide⟩,
    C3_amended_thm _ (by with_unfolding_all decide) (by with_unfolding_all decide)⟩

/-- Claim C4, counterexample: a mapping holding both a non-NaN-scored entry
and a NaN-scored entry can select the NaN-scored entry: with a:1 before
b:NaN in iteration order, the NaN entry b is returned. -/
theorem C4_counterexample :
    _find_max_item (some (Json.obj
        [("a", Json.num (F64.num 1)), ("b", Json.num F64.nan)])) =
      some ("b", F64.nan) ∧ F64.num 1 ≠ F64.nan :=
  ⟨by with_unfolding_all decide, by decide⟩

/-- Claim C4, amended: the comparison indeed never ranks NaN strictly
greater (incomparable pairs collapse to Equal), but since ties keep the
later element, the selected entry is non-NaN exactly when the LAST numeric
entry of the mapping is non-NaN; when the last numeric entry is NaN-scored,
that NaN entry itself is selected, even if non-NaN entries are present. -/
theorem C4_amended_thm (entries : List (String × Json)) (l : List (String × F64))
    (x : String × F64) (hsplit : numericEntries entries = l ++ [x]) :
    (∀ a b : F64, a = F64.nan ∨ b = F64.nan → scoreCmp a b ≠ .gt) ∧
      (x.2 ≠ F64.nan →
        ∃ r, _find_max_item (some (Json.obj entries)) = some r ∧ r.2 ≠ F64.nan) ∧
      (x.2 = F64.nan → _find_max_item (some (Json.obj entries)) = some x) := by
  refine ⟨scoreCmp_nan_not_gt, ?_, ?_⟩ <;> rw [find_max_eq, hsplit]
  · cases l with
    | nil => exact fun hx => ⟨x, rfl, hx⟩
    | cons z zs =>
      simp only [List.cons_append]
      intro hx
      have hf : (zs ++ [x]).foldl maxStep z = maxStep (zs.foldl maxStep z) x := by
        rw [List.foldl_append]
        rfl
      refine ⟨maxStep (zs.foldl maxStep z) x, ?_, ?_⟩
      · show some ((zs ++ [x]).foldl maxStep z) = _
        rw [hf]
      · unfold maxStep
        split
        · next hgt =>
            obtain ⟨qa, qb, ha, _, _⟩ := scoreCmp_gt_num hgt
            rw [ha]
            simp
        · exact hx
  · cases l with
    | nil => exact fun _ => rfl
    | cons z zs =>
      simp only [List.cons_append]
      intro hx
      have hf : (zs ++ [x]).foldl maxStep z = maxStep (zs.foldl maxStep z) x := by
        rw [List.foldl_append]
        rfl
      show some ((zs ++ [x]).foldl maxStep z) = some x
      rw [hf]
      have hng : scoreCmp (zs.foldl maxStep z).2 x.2 ≠ .gt :=
        scoreCmp_nan_not_gt _ _ (Or.inr hx)
      simp [maxStep, hng]

/-- Witness for C4_amended_thm at the mapping a:1, b:NaN. -/
theorem C4_amended_witness :
    (numericEntries [("a", Json.num (F64.num 1)), ("b", Json.num F64.nan)] =
        [("a", F64.num 1)] ++ [("b", F64.nan)]) ∧
      (∀ a b : F64, a = F64.nan ∨ b = F64.nan → scoreCmp a b ≠ .gt) ∧
      (("b", F64.nan).2 ≠ F64.nan →
        ∃ r, _find_max_item (some (Json.obj
            [("a", Json.num (F64.num 1)), ("b", Json.num F64.nan)])) = some r ∧
          r.2 ≠ F64.nan) ∧
      (("b", F64.nan).2 = F64.nan →
        _find_max_item (some (Json.obj
            [("a", Json.num (F64.num 1)), ("b", Json.num F64.nan)])) =
          some ("b", F64.nan)) :=
  ⟨by with_unfolding_all decide,
    C4_amended_thm [("a", Json.num (F64.num 1)), ("b", Json.num F64.nan)]
      [("a", F64.num 1)] ("b", F64.nan) (by with_unfolding_all rfl)⟩
/-! Claim C7 -/

/-- Claim C7: a line whose text field (or url field) is missing or not a
string makes that file's conversion fail; and whenever the per-line
accumulation loop completes, no row it produced holds a null in the text or
url columns (so no finalized batch can hold one either, the batch columns
being exactly the loop's builders). -/
theorem C7_thm (contents : String) :
    ((∃ line ∈ io_lines contents, ∃ j, from_str line = some j ∧
        ((j.index "text").as_str = none ∨ (j.index "url").as_str = none)) →
      ∃ e, jsonl_to_parquet contents = .error e) ∧
      ∀ b : Builders, (io_lines contents).foldlM process_line Builders.new = .ok b →
        (∀ x ∈ b.text, x ≠ none) ∧ ∀ x ∈ b.url, x ≠ none := by
  constructor
  · rintro ⟨line, hmem, j, hj, hbad⟩
    exact jsonl_error_of_bad_line hmem (extract_row_requires hj hbad)
  · intro b hb
    obtain ⟨rows, hrows, rfl⟩ := loop_ok_elim hb
    rw [foldl_appendRow_eq]
    constructor <;>
      · intro x hx
        simp only [Builders.new, List.nil_append, List.mem_map] at hx
        obtain ⟨r, _, rfl⟩ := hx
        simp

/-- Witness for C7_thm: a file whose single line lacks the text field fails
to convert, and a completed accumulation loop has no null in text or url. -/
theorem C7_witness :
    (∃ e, jsonl_to_parquet "\x7b\"url\":\"u\"\x7d" = .error e) ∧
      ((∀ x ∈ (⟨[some "a"], [some "u"], [none], [none], [none], [none]⟩ : Builders).text,
          x ≠ none) ∧
        ∀ x ∈ (⟨[some "a"], [some "u"], [none], [none], [none], [none]⟩ : Builders).url,
          x ≠ none) :=
  ⟨(C7_thm "\x7b\"url\":\"u\"\x7d").1
      ⟨"\x7b\"url\":\"u\"\x7d", by decide, Json.obj [("url", Json.str "u")],
        by with_unfolding_all rfl, Or.inl (by with_unfolding_all rfl)⟩,
    (C7_thm "\x7b\"text\":\"a\",\"url\":\"u\"\x7d").2
      ⟨[some "a"], [some "u"], [none], [none], [none], [none]⟩
      (by with_unfolding_all rfl)⟩

/-! Claim C8 -/

/-- Claim C8: on every successful conversion, all six columns of the
finalized batch have the same length, equal to the number of non-blank lines
that decode successfully (on success this is every line of the file). -/
theorem C8_thm (contents : String) (b : Builders)
    (h : jsonl_to_parquet contents = .ok b) :
    b.text.length =
        ((io_lines contents).filter
          (fun l => !(isBlank l) && (from_str l).isSome)).length ∧
      b.url.length = b.text.length ∧ b.id.length = b.text.length ∧
      b.language.length = b.text.length ∧ b.language_score.length = b.text.length ∧
      b.fasttext_score.length = b.text.length := by
  obtain ⟨rows, hrows, rfl⟩ := jsonl_ok_elim h
  have hfilter : (io_lines contents).filter
      (fun l => !(isBlank l) && (from_str l).isSome) = io_lines contents := by
    rw [List.filter_eq_self]
    intro line hline
    obtain ⟨r, hr⟩ := extractAll_ok_mem hrows line hline
    have hsome := extract_row_ok_isSome hr
    have hnb : isBlank line = false := by
      cases hbl : isBlank line
      · rfl
      · rw [from_str_blank hbl] at hsome
        simp at hsome
    simp [hnb, hsome]
  rw [hfilter, foldl_appendRow_eq]
  have hlen := extractAll_ok_length hrows
  simp [Builders.new, hlen]

set_option maxRecDepth 8192 in
/-- Witness for C8_thm at a one-line file whose record populates every
field (so the batch passes the non-nullable validation): every column has
length one, the number of non-blank decoded lines. -/
theorem C8_witness :
    jsonl_to_parquet
        "\x7b\"text\":\"a\",\"url\":\"u\",\"metadata\":\x7b\"WARC-Record-ID\":\"id1\"\x7d,\"language_id_whole_page_fasttext\":\x7b\"en\":1\x7d,\"fasttext_openhermes_reddit_eli5_vs_rw_v2_bigram_200k_train_prob\":1\x7d" =
        .ok (⟨[some "a"], [some "u"], [some "id1"], [some "en"], [some (F64.num 1)],
          [some (F64.num 1)]⟩ : Builders) ∧
      ((⟨[some "a"], [some "u"], [some "id1"], [some "en"], [some (F64.num 1)],
          [some (F64.num 1)]⟩ : Builders).text.length =
          ((io_lines
            "\x7b\"text\":\"a\",\"url\":\"u\",\"metadata\":\x7b\"WARC-Record-ID\":\"id1\"\x7d,\"language_id_whole_page_fasttext\":\x7b\"en\":1\x7d,\"fasttext_openhermes_reddit_eli5_vs_rw_v2_bigram_200k_train_prob\":1\x7d").filter
            (fun l => !(isBlank l) && (from_str l).isSome)).length ∧
        (⟨[some "a"], [some "u"], [some "id1"], [some "en"], [some (F64.num 1)],
          [some (F64.num 1)]⟩ : Builders).url.length =
          (⟨[some "a"], [some "u"], [some "id1"], [some "en"], [some (F64.num 1)],
          [some (F64.num 1)]⟩ : Builders).text.length ∧
        (⟨[some "a"], [some "u"], [some "id1"], [some "en"], [some (F64.num 1)],
          [some (F64.num 1)]⟩ : Builders).id.length =
          (⟨[some "a"], [some "u"], [some "id1"], [some "en"], [some (F64.num 1)],
          [some (F64.num 1)]⟩ : Builders).text.length ∧
        (⟨[some "a"], [some "u"], [some "id1"], [some "en"], [some (F64.num 1)],
          [some (F64.num 1)]⟩ : Builders).language.length =
          (⟨[some "a"], [some "u"], [some "id1"], [some "en"], [some (F64.num 1)],
          [some (F64.num 1)]⟩ : Builders).text.length ∧
        (⟨[some "a"], [some "u"], [some "id1"], [some "en"], [some (F64.num 1)],
          [some (F64.num 1)]⟩ : Builders).language_score.length =
          (⟨[some "a"], [some "u"], [some "id1"], [some "en"], [some (F64.num 1)],
          [some (F64.num 1)]⟩ : Builders).text.length ∧
        (⟨[some "a"], [some "u"], [some "id1"], [some "en"], [some (F64.num 1)],
          [some (F64.num 1)]⟩ : Builders).fasttext_score.length =
          (⟨[some "a"], [some "u"], [some "id1"], [some "en"], [some (F64.num 1)],
          [some (F64.num 1)]⟩ : Builders).text.length) :=
  ⟨by with_unfolding_all rfl,
    C8_thm
      "\x7b\"text\":\"a\",\"url\":\"u\",\"metadata\":\x7b\"WARC-Record-ID\":\"id1\"\x7d,\"language_id_whole_page_fasttext\":\x7b\"en\":1\x7d,\"fasttext_openhermes_reddit_eli5_vs_rw_v2_bigram_200k_train_prob\":1\x7d"
      ⟨[some "a"], [some "u"], [some "id1"], [some "en"], [some (F64.num 1)],
        [some (F64.num 1)]⟩
      (by with_unfolding_all rfl)⟩

/-! Claim C9 -/

/-- Claim C9: for every decoded line, the language value appended for its
row is null exactly when the language_score value is; the theorem is stated
on the builders produced by the accumulation loop (lines 112-142), where
the claim's cases — mapping field absent, present but not an object, or an
object with no numeric entry — genuinely occur and null both columns
together.  (A batch with such nulls is then rejected by the non-nullable
validation of RecordBatch::try_new, so conditioning on the whole
conversion instead would make exactly those cases unreachable.) -/
theorem C9_thm (contents : String) (b : Builders)
    (h : (io_lines contents).foldlM process_line Builders.new = .ok b) (i : Nat) :
    b.language[i]? = some none ↔ b.language_score[i]? = some none := by
  obtain ⟨rows, hrows, rfl⟩ := loop_ok_elim h
  rw [foldl_appendRow_eq]
  simp only [Builders.new, List.nil_append, List.getElem?_map]
  cases hri : rows[i]? with
  | none => simp
  | some r =>
    obtain ⟨line, hline⟩ := extractAll_ok_rows_mem hrows r (List.getElem?_mem hri)
    have hiff := extract_row_ok_lang hline
    simp [hiff]

/-- Witness for C9_thm at a file whose line has no language mapping: the
loop completes and both the language and the language_score entries of the
row are null together. -/
theorem C9_witness :
    (io_lines "\x7b\"text\":\"a\",\"url\":\"u\"\x7d").foldlM process_line Builders.new =
        .ok (⟨[some "a"], [some "u"], [none], [none], [none], [none]⟩ : Builders) ∧
      ((⟨[some "a"], [some "u"], [none], [none], [none], [none]⟩ :
            Builders).language[0]? = some none ↔
        (⟨[some "a"], [some "u"], [none], [none], [none], [none]⟩ :
            Builders).language_score[0]? = some none) :=
  ⟨by with_unfolding_all rfl,
    C9_thm "\x7b\"text\":\"a\",\"url\":\"u\"\x7d"
      ⟨[some "a"], [some "u"], [none], [none], [none], [none]⟩
      (by with_unfolding_all rfl) 0⟩

/-! Claim C10 -/

/-- Claim C10: a line in which the top-level fasttext probability field is
present with a non-numeric value makes the file's conversion fail (the
as_f64 unwrap on line 140 is reached and fails); a line in which the field
is absent extracts successfully and contributes a null to the
fasttext_score column, stated on the builders of the accumulation loop
(lines 112-142), where the append genuinely happens.  (The later
RecordBatch::try_new rejects a batch holding that null, the field being
declared non-nullable, so conditioning on the whole conversion would make
the absent-field case unreachable.) -/
theorem C10_thm (contents : String) :
    ((∃ line ∈ io_lines contents, ∃ j v, from_str line = some j ∧
        j.get FT_KEY = some v ∧ v.as_f64 = none) →
      ∃ e, jsonl_to_parquet contents = .error e) ∧
      ∀ b : Builders, (io_lines contents).foldlM process_line Builders.new = .ok b →
        ∀ (i : Nat) (line : String) (j : Json), (io_lines contents)[i]? = some line →
          from_str line = some j → j.get FT_KEY = none →
          b.fasttext_score[i]? = some none := by
  constructor
  · rintro ⟨line, hmem, j, v, hj, hft, hv⟩
    exact jsonl_error_of_bad_line hmem (extract_row_ft_bad hj hft hv)
  · intro b hb i line j hline hj hft
    obtain ⟨rows, hrows, rfl⟩ := loop_ok_elim hb
    obtain ⟨r, hri, hr⟩ := extractAll_ok_get hrows i line hline
    have hftv := extract_row_ok_ft hr hj
    have hnoneval : ftValue j = .ok none := by simp only [ftValue, hft]
    have hnone : r.fasttext_score = none := by
      have h2 := hnoneval.symm.trans hftv
      injection h2 with h3
      exact h3.symm
    rw [foldl_appendRow_eq]
    simp only [Builders.new, List.nil_append, List.getElem?_map, hri]
    simp [hnone]

/-- Witness for C10_thm: a present non-numeric fasttext field aborts the
file, and an absent fasttext field yields a null column entry. -/
theorem C10_witness :
    (∃ e, jsonl_to_parquet
        "\x7b\"text\":\"a\",\"url\":\"u\",\"fasttext_openhermes_reddit_eli5_vs_rw_v2_bigram_200k_train_prob\":\"bad\"\x7d"
        = .error e) ∧
      (⟨[some "a"], [some "u"], [none], [none], [none], [none]⟩ :
          Builders).fasttext_score[0]? = some none :=
  ⟨(C10_thm
        "\x7b\"text\":\"a\",\"url\":\"u\",\"fasttext_openhermes_reddit_eli5_vs_rw_v2_bigram_200k_train_prob\":\"bad\"\x7d").1
      ⟨"\x7b\"text\":\"a\",\"url\":\"u\",\"fasttext_openhermes_reddit_eli5_vs_rw_v2_bigram_200k_train_prob\":\"bad\"\x7d",
        by decide,
        Json.obj [(FT_KEY, Json.str "bad"), ("text", Json.str "a"), ("url", Json.str "u")],
        Json.str "bad", by with_unfolding_all rfl, by with_unfolding_all rfl, rfl⟩,
    (C10_thm "\x7b\"text\":\"a\",\"url\":\"u\"\x7d").2
      ⟨[some "a"], [some "u"], [none], [none], [none], [none]⟩
      (by with_unfolding_all rfl) 0 "\x7b\"text\":\"a\",\"url\":\"u\"\x7d"
      (Json.obj [("text", Json.str "a"), ("url", Json.str "u")])
      (by with_unfolding_all rfl) (by with_unfolding_all rfl) (by with_unfolding_all rfl)⟩

end ParquetHF
